import Mathlib

/-!
Verification of the broker event ledger (`BrokerLog` in `src/broker/record.rs`).

The ledger records trade executions and dividend payments and derives
filtered views (`trades`, `dividends`, `trades_between`, `dividends_between`)
and a per-symbol weighted-average cost basis (`cost_basis`).

Numeric newtypes (`CashValue`, `PortfolioQty`, `Price`) and the timestamp
type (`DateTime`) are declared in `src/types`, which is outside the visible
fragment.  Modelled from the spec: prices, quantities and currency amounts
are "decimal" values with exact equality-to-zero semantics, embedded here as
`ℚ`; timestamps are "integer time values", embedded as `ℤ`.
-/

/-- Side of a trade, from `TradeType` in the broker module. -/
inductive TradeType where
  | Buy : TradeType
  | Sell : TradeType
deriving DecidableEq, Repr

/-- A completed trade: symbol, value (= price × quantity), quantity,
timestamp and side, mirroring the fields `cost_basis`, `trades_between`
and the tests read (`symbol`, `value`, `quantity`, `date`, `typ`). -/
structure Trade where
  symbol : String
  value : ℚ
  quantity : ℚ
  date : ℤ
  typ : TradeType
deriving DecidableEq, Repr

/-- A dividend payment: symbol, currency amount, timestamp
(`dividends_between` reads `date`). -/
structure DividendPayment where
  symbol : String
  value : ℚ
  date : ℤ
deriving DecidableEq, Repr

/-- `BrokerRecordedEvent`: tagged union of the two recordable events. -/
inductive BrokerRecordedEvent where
  | TradeCompleted : Trade → BrokerRecordedEvent
  | DividendPaid : DividendPayment → BrokerRecordedEvent
deriving DecidableEq, Repr

/-- The ledger: an ordered sequence of recorded events (`log: Vec<BrokerRecordedEvent>`). -/
structure BrokerLog where
  log : List BrokerRecordedEvent
deriving DecidableEq, Repr

namespace BrokerLog

/-- `BrokerLog::record`: convert the argument into an event and push it on
the tail of the log. -/
def record (b : BrokerLog) (event : BrokerRecordedEvent) : BrokerLog :=
  { log := b.log ++ [event] }

/-- Projection used by `trades`: the trade carried by a `TradeCompleted`
event, none for other variants. -/
def tradeOf : BrokerRecordedEvent → Option Trade
  | .TradeCompleted t => some t
  | .DividendPaid _ => none

/-- Projection used by `dividends`: the payment carried by a `DividendPaid`
event, none for other variants. -/
def dividendOf : BrokerRecordedEvent → Option DividendPayment
  | .TradeCompleted _ => none
  | .DividendPaid d => some d

/-- `BrokerLog::trades`: the trades of all `TradeCompleted` events in log order. -/
def trades (b : BrokerLog) : List Trade :=
  b.log.filterMap tradeOf

/-- `BrokerLog::dividends`: the payments of all `DividendPaid` events in log order. -/
def dividends (b : BrokerLog) : List DividendPayment :=
  b.log.filterMap dividendOf

/-- `BrokerLog::trades_between`: trades whose date lies in `[start, stop]`,
both ends inclusive (`v.date >= start && v.date <= stop`). -/
def trades_between (b : BrokerLog) (start stop : ℤ) : List Trade :=
  b.trades.filter (fun v => decide (start ≤ v.date ∧ v.date ≤ stop))

/-- `BrokerLog::dividends_between`: dividends whose date lies in `[start, stop]`,
both ends inclusive. -/
def dividends_between (b : BrokerLog) (start stop : ℤ) : List DividendPayment :=
  b.dividends.filter (fun v => decide (start ≤ v.date ∧ v.date ≤ stop))

/-- The per-trade accumulator update inside `cost_basis`: Buy adds the
trade's quantity and value, Sell subtracts them; afterwards, if the
cumulative quantity is exactly zero the cumulative value is reset to zero. -/
def costBasisUpdate (acc : ℚ × ℚ) (trade : Trade) : ℚ × ℚ :=
  let upd : ℚ × ℚ :=
    match trade.typ with
    | .Buy => (acc.1 + trade.quantity, acc.2 + trade.value)
    | .Sell => (acc.1 - trade.quantity, acc.2 - trade.value)
  if upd.1 = 0 then (upd.1, 0) else upd

/-- The per-event step of the `cost_basis` loop: a `TradeCompleted` event
whose symbol matches exactly updates the accumulators, everything else is
skipped. -/
def costBasisStep (symbol : String) (acc : ℚ × ℚ) : BrokerRecordedEvent → ℚ × ℚ
  | .TradeCompleted trade =>
      if trade.symbol = symbol then costBasisUpdate acc trade else acc
  | .DividendPaid _ => acc

/-- The `(cum_qty, cum_val)` pair after the `cost_basis` loop has scanned
the full log in insertion order, starting from `(0, 0)`. -/
def costBasisAccum (b : BrokerLog) (symbol : String) : ℚ × ℚ :=
  b.log.foldl (costBasisStep symbol) (0, 0)

/-- `BrokerLog::cost_basis`: scan the log accumulating `cum_qty`/`cum_val`
for the symbol; return none when the final quantity is zero, otherwise
`cum_val / cum_qty`. -/
def cost_basis (b : BrokerLog) (symbol : String) : Option ℚ :=
  let acc := costBasisAccum b symbol
  if acc.1 = 0 then none else some (acc.2 / acc.1)

/-- `BrokerLog::new`: the empty ledger. -/
def new : BrokerLog := { log := [] }

/-- `Default for BrokerLog`: delegates to `new`. -/
def default : BrokerLog := new

end BrokerLog

/-- Reference formulation of the cost-basis computation, stated the way the
spec words it: restrict `trades()` to the exactly-matching symbol, fold the
signed update with its zero-quantity reset over that subsequence, and map a
zero final quantity to absence, otherwise divide. -/
def cost_basis_spec (b : BrokerLog) (symbol : String) : Option ℚ :=
  let matching := b.trades.filter (fun t => decide (t.symbol = symbol))
  let acc := matching.foldl BrokerLog.costBasisUpdate (0, 0)
  if acc.1 = 0 then none else some (acc.2 / acc.1)

/-! ### Helper lemmas -/

/-- Mapping the `TradeCompleted` constructor back over `trades` reproduces the
filter of the log on trade-typed events. -/
lemma trades_map_eq : ∀ l : List BrokerRecordedEvent,
    (l.filterMap BrokerLog.tradeOf).map BrokerRecordedEvent.TradeCompleted
      = l.filter (fun e => (BrokerLog.tradeOf e).isSome)
  | [] => rfl
  | e :: l => by
      cases e <;> simp [BrokerLog.tradeOf, trades_map_eq l]

/-- Mapping the `DividendPaid` constructor back over `dividends` reproduces the
filter of the log on dividend-typed events. -/
lemma dividends_map_eq : ∀ l : List BrokerRecordedEvent,
    (l.filterMap BrokerLog.dividendOf).map BrokerRecordedEvent.DividendPaid
      = l.filter (fun e => (BrokerLog.dividendOf e).isSome)
  | [] => rfl
  | e :: l => by
      cases e <;> simp [BrokerLog.dividendOf, dividends_map_eq l]

/-- Every event is a trade or a dividend, so the two projections together
partition the log as a multiset. -/
lemma partition_multiset : ∀ l : List BrokerRecordedEvent,
    (↑((l.filterMap BrokerLog.tradeOf).map BrokerRecordedEvent.TradeCompleted)
      + ↑((l.filterMap BrokerLog.dividendOf).map BrokerRecordedEvent.DividendPaid)
        : Multiset BrokerRecordedEvent) = ↑l
  | [] => rfl
  | e :: l => by
      cases e with
      | TradeCompleted t =>
          simp only [List.filterMap_cons, BrokerLog.tradeOf, BrokerLog.dividendOf,
            List.map_cons, ← Multiset.cons_coe, Multiset.cons_add, partition_multiset l]
      | DividendPaid d =>
          simp only [List.filterMap_cons, BrokerLog.tradeOf, BrokerLog.dividendOf,
            List.map_cons, ← Multiset.cons_coe, Multiset.add_cons, partition_multiset l]

/-- Scanning the log with the per-event step equals folding the signed update
over the symbol-matching subsequence of the trades. -/
lemma foldl_costBasisStep (s : String) : ∀ (l : List BrokerRecordedEvent) (acc : ℚ × ℚ),
    l.foldl (BrokerLog.costBasisStep s) acc
      = ((l.filterMap BrokerLog.tradeOf).filter (fun t => decide (t.symbol = s))).foldl
          BrokerLog.costBasisUpdate acc
  | [], _ => rfl
  | e :: l, acc => by
      cases e with
      | TradeCompleted t =>
          by_cases h : t.symbol = s <;>
            simp [BrokerLog.costBasisStep, BrokerLog.tradeOf, h, foldl_costBasisStep s l]
      | DividendPaid d =>
          simp [BrokerLog.costBasisStep, BrokerLog.tradeOf, foldl_costBasisStep s l]

/-- If no trade in the list matches the symbol, the cost-basis scan leaves the
accumulators unchanged. -/
lemma foldl_costBasisStep_id (s : String) : ∀ (l : List BrokerRecordedEvent) (acc : ℚ × ℚ),
    (∀ t ∈ l.filterMap BrokerLog.tradeOf, t.symbol ≠ s) →
    l.foldl (BrokerLog.costBasisStep s) acc = acc
  | [], _, _ => rfl
  | e :: l, acc, h => by
      cases e with
      | TradeCompleted t =>
          have ht : t.symbol ≠ s := h t (by simp [BrokerLog.tradeOf])
          have hrest : ∀ u ∈ l.filterMap BrokerLog.tradeOf, u.symbol ≠ s := by
            intro u hu
            exact h u (by simp [BrokerLog.tradeOf, hu])
          simp [BrokerLog.costBasisStep, ht, foldl_costBasisStep_id s l acc hrest]
      | DividendPaid d =>
          have hrest : ∀ u ∈ l.filterMap BrokerLog.tradeOf, u.symbol ≠ s := by
            intro u hu
            exact h u (by simp [BrokerLog.tradeOf, hu])
          simp [BrokerLog.costBasisStep, foldl_costBasisStep_id s l acc hrest]

/-! ### Concrete ledgers used by witnesses -/

/-- A ledger holding a single short sale. -/
def shortLog : BrokerLog :=
  { log := [BrokerRecordedEvent.TradeCompleted
      { symbol := "ABC", value := 50, quantity := 10, date := 1, typ := TradeType.Sell }] }

/-- The position-closure scenario from the repository test: Buy(BCD,100,100),
Sell(BCD,500,100), Buy(BCD,50,50), recorded on an empty ledger. -/
def bcdLog : BrokerLog :=
  ((BrokerLog.new.record (BrokerRecordedEvent.TradeCompleted
      { symbol := "BCD", value := 100, quantity := 100, date := 102, typ := TradeType.Buy })).record
    (BrokerRecordedEvent.TradeCompleted
      { symbol := "BCD", value := 500, quantity := 100, date := 103, typ := TradeType.Sell })).record
    (BrokerRecordedEvent.TradeCompleted
      { symbol := "BCD", value := 50, quantity := 50, date := 104, typ := TradeType.Buy })

/-! ### Claim theorems -/

/-- C1: for every ledger and symbol, `cost_basis` — the insertion-order scan
that adds on Buy, subtracts on Sell, resets `cum_val` when `cum_qty` hits
exactly zero, and maps a zero final quantity to absence and otherwise divides
— computes exactly the spec's formulation over the symbol-matching trade
subsequence. -/
theorem cost_basis_correct (b : BrokerLog) (s : String) :
    b.cost_basis s = cost_basis_spec b s := by
  unfold BrokerLog.cost_basis cost_basis_spec BrokerLog.costBasisAccum BrokerLog.trades
  rw [foldl_costBasisStep]

/-- C2: `trades()` is exactly the trade-typed subsequence of the log in
insertion order, `dividends()` the dividend-typed subsequence, and together
they partition the recorded events as a multiset. -/
theorem trades_dividends_partition (b : BrokerLog) :
    b.trades.map BrokerRecordedEvent.TradeCompleted
      = b.log.filter (fun e => (BrokerLog.tradeOf e).isSome)
  ∧ b.dividends.map BrokerRecordedEvent.DividendPaid
      = b.log.filter (fun e => (BrokerLog.dividendOf e).isSome)
  ∧ (↑(b.trades.map BrokerRecordedEvent.TradeCompleted)
      + ↑(b.dividends.map BrokerRecordedEvent.DividendPaid)
        : Multiset BrokerRecordedEvent) = ↑b.log :=
  ⟨trades_map_eq b.log, dividends_map_eq b.log, partition_multiset b.log⟩

/-- C3: `trades_between`/`dividends_between` keep exactly the events whose
timestamp lies in the inclusive window `[start, stop]`, preserve order
(sublists of `trades()`/`dividends()`), and return the empty sequence on an
inverted window. -/
theorem between_inclusive (b : BrokerLog) (a c : ℤ) :
    (∀ t : Trade, t ∈ b.trades_between a c ↔ t ∈ b.trades ∧ a ≤ t.date ∧ t.date ≤ c)
  ∧ (b.trades_between a c).Sublist b.trades
  ∧ (∀ d : DividendPayment,
      d ∈ b.dividends_between a c ↔ d ∈ b.dividends ∧ a ≤ d.date ∧ d.date ≤ c)
  ∧ (b.dividends_between a c).Sublist b.dividends
  ∧ (c < a → b.trades_between a c = [] ∧ b.dividends_between a c = []) := by
  refine ⟨?_, List.filter_sublist _, ?_, List.filter_sublist _, ?_⟩
  · intro t
    simp [BrokerLog.trades_between, List.mem_filter]
  · intro d
    simp [BrokerLog.dividends_between, List.mem_filter]
  · intro h
    constructor
    · unfold BrokerLog.trades_between
      rw [List.filter_eq_nil_iff]
      intro x _
      simp only [decide_eq_true_eq, not_and]
      intro h1 h2
      omega
    · unfold BrokerLog.dividends_between
      rw [List.filter_eq_nil_iff]
      intro x _
      simp only [decide_eq_true_eq, not_and]
      intro h1 h2
      omega

/-- C3 witness: on the single-trade ledger, an inverted window (start 3,
stop 1) yields empty results. -/
theorem between_inclusive_witness :
    shortLog.trades_between 3 1 = [] ∧ shortLog.dividends_between 3 1 = [] :=
  (between_inclusive shortLog 3 1).2.2.2.2 (by decide)

/-- C4: the division `cum_val / cum_qty` is never reached with a zero
divisor: either the final quantity is zero and the result is absent, or the
divisor is provably nonzero at the division. -/
theorem cost_basis_no_div_by_zero (b : BrokerLog) (s : String) :
    ((b.costBasisAccum s).1 = 0 ∧ b.cost_basis s = none)
  ∨ ((b.costBasisAccum s).1 ≠ 0
      ∧ b.cost_basis s = some ((b.costBasisAccum s).2 / (b.costBasisAccum s).1)) := by
  by_cases h : (b.costBasisAccum s).1 = 0
  · exact Or.inl ⟨h, by unfold BrokerLog.cost_basis; rw [if_pos h]⟩
  · exact Or.inr ⟨h, by unfold BrokerLog.cost_basis; rw [if_neg h]⟩

/-- C5: in the Buy(BCD,100,100), Sell(BCD,500,100), Buy(BCD,50,50) scenario,
the Sell closes the quantity to exactly zero and resets the accumulated value
to zero, and the resulting cost basis is 1 = 50/50, not a stale value. -/
theorem cost_basis_bcd_reset :
    (bcdLog.log.take 2).foldl (BrokerLog.costBasisStep "BCD") (0, 0) = ((0 : ℚ), (0 : ℚ))
  ∧ bcdLog.cost_basis "BCD" = some 1 := by
  constructor
  · norm_num [bcdLog, BrokerLog.new, BrokerLog.record, BrokerLog.costBasisStep,
      BrokerLog.costBasisUpdate]
  · norm_num [bcdLog, BrokerLog.new, BrokerLog.record, BrokerLog.cost_basis,
      BrokerLog.costBasisAccum, BrokerLog.costBasisStep, BrokerLog.costBasisUpdate]

/-- C6: a symbol with no matching trades yields the absent result, which is
the same result as any symbol whose net quantity accumulates to exactly
zero. -/
theorem cost_basis_absent_flat (b : BrokerLog) (s : String) :
    ((∀ t ∈ b.trades, t.symbol ≠ s) → b.cost_basis s = none)
  ∧ ((b.costBasisAccum s).1 = 0 → b.cost_basis s = none) := by
  constructor
  · intro h
    have hacc : b.costBasisAccum s = (0, 0) :=
      foldl_costBasisStep_id s b.log (0, 0) h
    have hq : (b.costBasisAccum s).1 = 0 := by rw [hacc]
    unfold BrokerLog.cost_basis
    rw [if_pos hq]
  · intro h
    unfold BrokerLog.cost_basis
    rw [if_pos h]

/-- C6 witness: on the BCD-only ledger, the never-traded symbol ZZZ is
absent, and so is ABC whose accumulated quantity is zero. -/
theorem cost_basis_absent_flat_witness :
    bcdLog.cost_basis "ZZZ" = none ∧ bcdLog.cost_basis "ABC" = none :=
  ⟨(cost_basis_absent_flat bcdLog "ZZZ").1 (by decide),
   (cost_basis_absent_flat bcdLog "ABC").2 (by decide)⟩

/-- C7: widening the window keeps every trade, and any windowed result is a
sub-multiset of `trades()`. -/
theorem between_monotone (b : BrokerLog) (a c a' c' : ℤ)
    (h1 : a' ≤ a) (h2 : c ≤ c') :
    (∀ t : Trade, t ∈ b.trades_between a c → t ∈ b.trades_between a' c')
  ∧ ((b.trades_between a c : Multiset Trade) ≤ (b.trades : Multiset Trade)) := by
  constructor
  · intro t ht
    rw [BrokerLog.trades_between, List.mem_filter] at ht ⊢
    refine ⟨ht.1, ?_⟩
    have hb := of_decide_eq_true ht.2
    simp only [decide_eq_true_eq]
    omega
  · exact Multiset.coe_le.mpr (List.filter_sublist _).subperm

/-- C7 witness: on the BCD ledger the window [103,103] is contained in
[102,104] and is a sub-multiset of all trades. -/
theorem between_monotone_witness :
    (bcdLog.trades_between 103 103 : Multiset Trade) ≤ (bcdLog.trades : Multiset Trade) :=
  (between_monotone bcdLog 103 103 102 104 (by decide) (by decide)).2

/-- C8: `record` appends the event at the tail with no validation: the new
log is the old log with the event appended, the length grows by exactly one,
and every previously recorded event is unchanged and in place. -/
theorem record_appends (b : BrokerLog) (e : BrokerRecordedEvent) :
    (b.record e).log = b.log ++ [e]
  ∧ (b.record e).log.length = b.log.length + 1
  ∧ (b.record e).log.take b.log.length = b.log := by
  refine ⟨rfl, by simp [BrokerLog.record], by simp [BrokerLog.record]⟩

/-- C9: the zero-argument constructor and the default instance coincide and
produce the empty ledger, on which every query is empty or absent. -/
theorem new_default_empty :
    BrokerLog.default = BrokerLog.new
  ∧ BrokerLog.new.trades = []
  ∧ BrokerLog.new.dividends = []
  ∧ (∀ a c : ℤ, BrokerLog.new.trades_between a c = []
      ∧ BrokerLog.new.dividends_between a c = [])
  ∧ (∀ s : String, BrokerLog.new.cost_basis s = none) :=
  ⟨rfl, rfl, rfl, fun _ _ => ⟨rfl, rfl⟩, fun _ => rfl⟩

/-- C10: when the matching trades leave a strictly negative net quantity, the
cost basis is present and equals `cum_val / cum_qty`; only exact zero maps to
absence. -/
theorem cost_basis_net_short (b : BrokerLog) (s : String)
    (h : (b.costBasisAccum s).1 < 0) :
    b.cost_basis s = some ((b.costBasisAccum s).2 / (b.costBasisAccum s).1) := by
  unfold BrokerLog.cost_basis
  rw [if_neg (ne_of_lt h)]

/-- C10 witness: a lone Sell of 10 units for 50 leaves net quantity −10 and a
present cost basis. -/
theorem cost_basis_net_short_witness :
    shortLog.cost_basis "ABC"
      = some ((shortLog.costBasisAccum "ABC").2 / (shortLog.costBasisAccum "ABC").1) :=
  cost_basis_net_short shortLog "ABC" (by
    norm_num [shortLog, BrokerLog.costBasisAccum, BrokerLog.costBasisStep,
      BrokerLog.costBasisUpdate])
